import Mathlib

/-!
Verification of the `tribixbite/imaginize` compile scripts
(`src/scripts/compile_cbz.py`, `compile_epub.py`, `compile_html.py`,
`compile_pdf.py`, `compile_webp_album.py`, `compile_webp_strip.py`).

Python strings are shallowly embedded as `List Char` (the scripts only
process ASCII data; Python's Unicode-aware character classes `\d`,
`str.isupper`, `str.lower` are modelled on the ASCII range).  Regex use is
limited to the two literal patterns `chapter_(\d+)_scene_(\d+)` and
`chapter_(\d+)_scene_(\d+)\.png`; `re.search` on these patterns is modelled
exactly (leftmost match, greedy digit runs, which for these patterns are
the maximal digit runs).
-/

namespace Imaginize

/-- Python string, embedded as a list of characters. -/
abbrev PyStr := List Char

/-- `String` literal to embedded Python string. -/
def pys (s : String) : PyStr := s.toList

/-- Python whitespace for `str.split()` / `str.strip()` (ASCII range). -/
def pyIsSpace (c : Char) : Bool :=
  c = ' ' || c = '\t' || c = '\n' || c = '\r' || c = '\x0b' || c = '\x0c'

/-- ASCII decimal digit, modelling the regex class `\d`. -/
def pyIsDigit (c : Char) : Bool := '0' ≤ c && c ≤ '9'

/-- Uppercase letter, modelling `str.isupper()` on one character. -/
def pyIsUpper (c : Char) : Bool := 'A' ≤ c && c ≤ 'Z'

/-- ASCII `str.lower()` on one character. -/
def pyLowerChar (c : Char) : Char :=
  if 'A' ≤ c && c ≤ 'Z' then Char.ofNat (c.toNat + 32) else c

/-- `str.lower()`. -/
def pyLower (s : PyStr) : PyStr := s.map pyLowerChar

/-- `str.strip()`: remove leading and trailing whitespace. -/
def pyStrip (s : PyStr) : PyStr :=
  ((s.dropWhile pyIsSpace).reverse.dropWhile pyIsSpace).reverse

/-- `str.rstrip(",.;:")` as used by `extract_smart_caption`. -/
def pyRstripPunct (s : PyStr) : PyStr :=
  (s.reverse.dropWhile (fun c => c = ',' || c = '.' || c = ';' || c = ':')).reverse

/-- Substring containment, modelling Python's `needle in hay`. -/
def pyContains (hay needle : PyStr) : Bool :=
  match hay with
  | [] => needle = []
  | _ :: t => needle.isPrefixOf hay || pyContains t needle

/-- `str.startswith(pre)`. -/
def pyStartsWith (s pre : PyStr) : Bool := pre.isPrefixOf s

/-- The part of `hay` after the first occurrence of `needle`, modelling
`hay.split(needle, 1)[1]` (callers only use it when `needle in hay`). -/
def pyAfterFirst (needle : PyStr) : PyStr → PyStr
  | [] => []
  | c :: cs => if needle.isPrefixOf (c :: cs) then (c :: cs).drop needle.length
               else pyAfterFirst needle cs

/-- `str.split()` (no separator): maximal runs of non-whitespace characters.
The accumulator holds the current token reversed. -/
def pySplitWsAux : List Char → List Char → List PyStr
  | [], acc => if acc = [] then [] else [acc.reverse]
  | c :: cs, acc =>
      if pyIsSpace c then
        if acc = [] then pySplitWsAux cs [] else acc.reverse :: pySplitWsAux cs []
      else pySplitWsAux cs (c :: acc)

/-- `str.split()` with no arguments. -/
def pySplitWs (s : PyStr) : List PyStr := pySplitWsAux s []

/-- `' '.join(tokens)`. -/
def joinSpace : List PyStr → PyStr
  | [] => []
  | [t] => t
  | t :: ts => t ++ ' ' :: joinSpace ts

/-- Digit string to the natural number Python's `int()` returns on it. -/
def digitsToNat (s : PyStr) : Nat :=
  s.foldl (fun acc c => 10 * acc + (c.toNat - '0'.toNat)) 0

/-- Attempt to match `chapter_(\d+)_scene_(\d+)` exactly at the start of
`s`, optionally requiring a literal `.png` right after (the
`compile_webp_strip.py` loader pattern ends in `\.png`).  Greedy `\d+`
against a following literal `_` (resp. `.`) can only succeed on the
maximal digit run, so the match is modelled as maximal digit runs.
Returns the two capture groups. -/
def chapterSceneHere (png : Bool) (s : PyStr) : Option (PyStr × PyStr) :=
  if (pys "chapter_").isPrefixOf s then
    let r1 := s.drop 8
    let d1 := r1.takeWhile pyIsDigit
    if d1 = [] then none
    else
      let r2 := r1.drop d1.length
      if (pys "_scene_").isPrefixOf r2 then
        let r3 := r2.drop 7
        let d2 := r3.takeWhile pyIsDigit
        if d2 = [] then none
        else if png then
          if (pys ".png").isPrefixOf (r3.drop d2.length) then some (d1, d2) else none
        else some (d1, d2)
      else none
  else none

/-- `re.search` for the two patterns: first position (leftmost) at which
`chapterSceneHere` succeeds. -/
def chapterSceneSearch (png : Bool) : PyStr → Option (PyStr × PyStr)
  | [] => chapterSceneHere png []
  | c :: cs =>
      match chapterSceneHere png (c :: cs) with
      | some r => some r
      | none => chapterSceneSearch png cs

/-- `re.search(r'chapter_(\d+)_scene_(\d+)', s)`, capture groups as strings. -/
def reSearchCS (s : PyStr) : Option (PyStr × PyStr) := chapterSceneSearch false s

/-- `re.search(r'chapter_(\d+)_scene_(\d+)\.png', s)`. -/
def reSearchCSPng (s : PyStr) : Option (PyStr × PyStr) := chapterSceneSearch true s

/-! ## Caption extractor (`extract_smart_caption`)

The function is textually identical in `compile_cbz.py`,
`compile_epub.py` and `compile_webp_album.py`; it is embedded once. -/

/-- The `skip` stopword set of `extract_smart_caption`. -/
def skipWords : List PyStr :=
  [pys "a", pys "an", pys "the", pys "is", pys "are", pys "was", pys "were",
   pys "has", pys "have", pys "had", pys "and", pys "or", pys "but",
   pys "with", pys "by", pys "for", pys "to", pys "from", pys "of",
   pys "tall", pys "short", pys "out", pys "shape", pys "dressed",
   pys "appearing", pys "blurred", pys "contrasting", pys "standing",
   pys "sitting", pys "looking", pys "like"]

/-- The location prepositions `['in', 'at', 'on', 'near', 'before']`. -/
def prepWords : List PyStr :=
  [pys "in", pys "at", pys "on", pys "near", pys "before"]

/-- First sentence: tokens up to and including the first token ending in
`.` (the `for w in words: ...append...; if w.endswith('.'): break` loop). -/
def firstSentence : List PyStr → List PyStr
  | [] => []
  | w :: ws => if w.getLast? = some '.' then [w] else w :: firstSentence ws

/-- Keep condition for a cleaned token: capitalized first char, location
preposition, or neither a stopword nor too short. -/
def keepTok (clean : PyStr) : Bool :=
  pyIsUpper (clean.headD ' ') || pyLower clean ∈ prepWords ||
    (pyLower clean ∉ skipWords && clean.length > 2)

/-- The token-selection loop of `extract_smart_caption`: strip trailing
punctuation, skip empty results, keep per `keepTok`, break once 7 tokens
are kept (the length check runs after a potential append). -/
def capLoop : List PyStr → List PyStr → List PyStr
  | [], acc => acc
  | w :: ws, acc =>
      let clean := pyRstripPunct w
      if clean = [] then capLoop ws acc
      else
        let acc' := if keepTok clean then acc ++ [clean] else acc
        if acc'.length ≥ 7 then acc' else capLoop ws acc'

/-- The tokens surviving `extract_smart_caption`'s filter. -/
def smartTokens (desc : PyStr) : List PyStr :=
  capLoop (firstSentence (pySplitWs desc)) []

/-- `extract_smart_caption(desc)` from `compile_cbz.py` lines 70-106
(identical in `compile_epub.py` and `compile_webp_album.py`):
empty input gives `""`; otherwise the kept tokens joined by spaces,
falling back to `desc[:50]` when no token survives. -/
def extract_smart_caption (desc : PyStr) : PyStr :=
  if desc = [] then []
  else if smartTokens desc = [] then desc.take 50
  else joinSpace (smartTokens desc)

/-! ## Image collector (`collect_images`)

The function is textually identical in all six scripts.  The filesystem
`glob` enumeration is modelled by taking the pre-sort list of paths as
input; `images.sort(key=sort_key)` (Python's stable sort) is modelled by a
stable insertion sort, which produces the same list as any stable sort by
the same key. -/

/-- The final path component (text after the last `/`), modelling
`pathlib`'s `Path(p).name`. -/
def lastComponent (p : PyStr) : PyStr :=
  (p.reverse.takeWhile (fun c => c ≠ '/')).reverse

/-- Drop the last suffix from a file name, modelling `pathlib`'s stem
rule: the suffix is `name[i:]` for `i = name.rfind('.')` only when
`0 < i < len(name) - 1`. -/
def pyStemName (name : PyStr) : PyStr :=
  let rev := name.reverse
  let afterRev := rev.takeWhile (fun c => c ≠ '.')
  if afterRev.length = rev.length then name
  else
    let beforeRev := (rev.dropWhile (fun c => c ≠ '.')).drop 1
    if afterRev.isEmpty || beforeRev.isEmpty then name else beforeRev.reverse

/-- `Path(p).stem`. -/
def pyStem (p : PyStr) : PyStr := pyStemName (lastComponent p)

/-- `sort_key` from `collect_images`: the integer pair parsed from the
stem, or the sentinel `(999, 999)`. -/
def sort_key (path : PyStr) : Nat × Nat :=
  match reSearchCS (pyStem path) with
  | some (d1, d2) => (digitsToNat d1, digitsToNat d2)
  | none => (999, 999)

/-- Whether the stem has a `chapter_<N>_scene_<M>` match. -/
def hasSceneMatch (path : PyStr) : Bool := (reSearchCS (pyStem path)).isSome

/-- Lexicographic `≤` on integer pairs (Python tuple comparison). -/
def keyLe (a b : Nat × Nat) : Prop := a.1 < b.1 ∨ (a.1 = b.1 ∧ a.2 ≤ b.2)

/-- Lexicographic `<` on integer pairs. -/
def keyLt (a b : Nat × Nat) : Prop := a.1 < b.1 ∨ (a.1 = b.1 ∧ a.2 < b.2)

instance (a b : Nat × Nat) : Decidable (keyLe a b) := by unfold keyLe; infer_instance

instance (a b : Nat × Nat) : Decidable (keyLt a b) := by unfold keyLt; infer_instance

/-- Stable insertion: a newly processed path goes after every already
placed path whose key is `≤` its own. -/
def insertByKey (a : PyStr) : List PyStr → List PyStr
  | [] => [a]
  | b :: bs => if keyLt (sort_key a) (sort_key b) then a :: b :: bs
               else b :: insertByKey a bs

/-- `images.sort(key=sort_key)`: stable ascending sort by `sort_key`. -/
def pySortImages (ps : List PyStr) : List PyStr :=
  ps.foldl (fun acc p => insertByKey p acc) []

/-! ## Scene description loaders

Two loader families exist in the repository.  `compile_cbz.py` (and,
textually identically, `compile_epub.py` / `compile_webp_album.py`) scans
a 15-line window after each `**Visual Elements:**` block for a
`chapter_<N>_scene_<M>` reference.  `compile_webp_strip.py` instead keeps
a pending description and assigns it at the next
`**Generated Image:**`/`View Image` marker line. -/

/-- The description table: a write log, most recent write first.  Lookup
returns the most recent write for a key (Python dict last-write-wins). -/
abbrev Descs := List ((PyStr × PyStr) × PyStr)

/-- `descriptions[(c, s)] = v`. -/
def dictInsert (k : PyStr × PyStr) (v : PyStr) (d : Descs) : Descs := (k, v) :: d

/-- `descriptions[(c, s)]` together with the `in` test. -/
def dictGet (d : Descs) (k : PyStr × PyStr) : Option PyStr :=
  (d.find? (fun e => e.1 = k)).map (·.2)

/-- `'**Visual Elements:**'`. -/
def veMarker : PyStr := pys "**Visual Elements:**"

/-- Condition for a raw line to continue a Visual Elements paragraph:
`lines[k].strip()` truthy and not `lines[k].startswith('**')`. -/
def contOk (l : PyStr) : Bool := !(pyStrip l).isEmpty && !pyStartsWith l (pys "**")

/-- The accumulated block text before the final `strip()`: the text after
the marker on the (stripped) marker line, plus each immediately following
continuation line stripped and space-joined. -/
def captureRaw (line : PyStr) (rest : List PyStr) : PyStr :=
  let descLine := pyStrip (pyAfterFirst veMarker line)
  ((rest.takeWhile contOk).map pyStrip).foldl (fun acc c => acc ++ ' ' :: c) descLine

/-- Whether a raw line passes `'chapter_' in lines[j] and '_scene_' in lines[j]`. -/
def pairIn (l : PyStr) : Bool :=
  pyContains l (pys "chapter_") && pyContains l (pys "_scene_")

/-- The CBZ-family lookahead: scan at most `fuel` lines; at the first line
containing both `chapter_` and `_scene_`, return its regex match (or
nothing, if the regex fails there — the loop `break`s either way). -/
def findRefAux : Nat → List PyStr → Option (PyStr × PyStr)
  | 0, _ => none
  | _ + 1, [] => none
  | fuel + 1, l :: ls => if pairIn l then reSearchCS l else findRefAux fuel ls

/-- `for j in range(i, min(i+15, len(lines)))` over the suffix of the
line list starting at the marker line. -/
def findRef (suffix : List PyStr) : Option (PyStr × PyStr) := findRefAux 15 suffix

/-- `load_scene_descriptions` of `compile_cbz.py` (lines 27-68; textually
identical in `compile_epub.py` and `compile_webp_album.py`), as a pass
over the remaining lines: at each line whose stripped form contains the
marker, capture the paragraph and look ahead 15 raw lines (the marker
line itself included) for a reference. -/
def cbzLoadAux : List PyStr → Descs → Descs
  | [], d => d
  | l :: ls, d =>
      let line := pyStrip l
      let d' := if pyContains line veMarker then
                  match findRef (l :: ls) with
                  | some k => dictInsert k (pyStrip (captureRaw line ls)) d
                  | none => d
                else d
      cbzLoadAux ls d'

/-- The CBZ-family scene description loader on the lines of `Chapters.md`. -/
def load_scene_descriptions_cbz (lines : List PyStr) : Descs := cbzLoadAux lines []

/-- `'**Generated Image:**' in line or 'View Image' in line`
(`compile_webp_strip.py` line 64), on the stripped line. -/
def imgMarker (line : PyStr) : Bool :=
  pyContains line (pys "**Generated Image:**") || pyContains line (pys "View Image")

/-- One step of the WebP-strip loader's pending description: a Visual
Elements marker replaces it with the captured text, and any
Generated-Image/View-Image marker line then resets it to empty. -/
def wsStepPending (line : PyStr) (rest : List PyStr) (pending : PyStr) : PyStr :=
  let p1 := if pyContains line veMarker then captureRaw line rest else pending
  if imgMarker line then [] else p1

/-- One step of the WebP-strip loader's table: on a marker line, insert
only when the `chapter_(\d+)_scene_(\d+)\.png` regex matches and the
(possibly just captured) pending description is truthy. -/
def wsStepDict (line : PyStr) (rest : List PyStr) (pending : PyStr) (d : Descs) : Descs :=
  let p1 := if pyContains line veMarker then captureRaw line rest else pending
  if imgMarker line then
    match reSearchCSPng line with
    | some k => if p1 = [] then d else dictInsert k (pyStrip p1) d
    | none => d
  else d

/-- `load_scene_descriptions` of `compile_webp_strip.py` (lines 38-76):
state is the `current_desc` pending description and the table. -/
def wsLoadAux : List PyStr → PyStr → Descs → Descs
  | [], _, d => d
  | l :: ls, pending, d =>
      wsLoadAux ls (wsStepPending (pyStrip l) ls pending) (wsStepDict (pyStrip l) ls pending d)

/-- The WebP-strip scene description loader on the lines of `Chapters.md`. -/
def load_scene_descriptions_ws (lines : List PyStr) : Descs := wsLoadAux lines [] []

/-- Number of lines whose stripped form contains `**Visual Elements:**`. -/
def countVE (lines : List PyStr) : Nat :=
  lines.countP (fun l => pyContains (pyStrip l) veMarker)

/-! ## Per-image captions (`get_caption`) -/

/-- `get_caption` of `compile_cbz.py` lines 108-117: on a scene match,
the smart caption of the stored description or a `Chapter N, Scene M`
fallback; otherwise the file stem. -/
def get_caption_cbz (img_path : PyStr) (descriptions : Descs) : PyStr :=
  match reSearchCS (pyStem img_path) with
  | some (c, s) =>
      match dictGet descriptions (c, s) with
      | some desc => extract_smart_caption desc
      | none => pys "Chapter " ++ c ++ pys ", Scene " ++ s
  | none => pyStem img_path

/-- `get_caption` of `compile_epub.py` lines 117-126: same as the CBZ
variant except that a stem without a scene match yields `""`. -/
def get_caption_epub (img_path : PyStr) (descriptions : Descs) : PyStr :=
  match reSearchCS (pyStem img_path) with
  | some (c, s) =>
      match dictGet descriptions (c, s) with
      | some desc => extract_smart_caption desc
      | none => pys "Chapter " ++ c ++ pys ", Scene " ++ s
  | none => []

/-- `get_caption` of `compile_webp_album.py` lines 117-126: identical to
the EPUB variant. -/
def get_caption_album (img_path : PyStr) (descriptions : Descs) : PyStr :=
  match reSearchCS (pyStem img_path) with
  | some (c, s) =>
      match dictGet descriptions (c, s) with
      | some desc => extract_smart_caption desc
      | none => pys "Chapter " ++ c ++ pys ", Scene " ++ s
  | none => []

/-! ## WebP strip emitter (`create_webp_strip`)

`compile_webp_strip.py` lines 108-228.  An image is modelled by its
composited height in pixels after scaling to the strip width (the code's
`int(img.height * (strip_width / img.width))`); the PIL I/O is out of
scope.  All arithmetic is over `ℤ` with `Int.fdiv` for Python's floor
division `//`. -/

/-- `toc_height = 100 + (len(images) * toc_item_height) + spacing * 2`. -/
def tocHeight (n : Nat) : Int := 100 + (n : Int) * 30 + 20 * 2

/-- The estimated total composited height: header + spacing, TOC +
spacing, each image + caption + spacing, and a 100px footer. -/
def totalStripHeight (heights : List Int) : Int :=
  200 + 20 + (tocHeight heights.length + 20) +
    heights.foldl (fun acc h => acc + (h + 60 + 20)) 0 + 100

/-- `avg_img_height = (total_height - header_height - toc_height - 100) // len(images)`. -/
def avgImgHeight (heights : List Int) : Int :=
  (totalStripHeight heights - 200 - tocHeight heights.length - 100).fdiv heights.length

/-- `images_in_first_strip = max(1, first_strip_available // avg_img_height)`. -/
def imagesInFirst (heights : List Int) : Int :=
  max 1 ((16000 - 200 - tocHeight heights.length - 100 - 20 * 3).fdiv (avgImgHeight heights))

/-- `images_per_other_strip = max(1, other_strip_available // avg_img_height)`. -/
def imagesPerOther (heights : List Int) : Int :=
  max 1 (((16000 : Int) - 200 - 100 - 20 * 2).fdiv (avgImgHeight heights))

/-- `num_strips`: one strip plus, when images remain beyond the first
strip, the ceiling of the remainder over the per-strip estimate. -/
def numStrips (heights : List Int) : Int :=
  let remaining := (heights.length : Int) - imagesInFirst heights
  if remaining > 0 then
    1 + (remaining + imagesPerOther heights - 1).fdiv (imagesPerOther heights)
  else 1

/-- The slice loop: `end_idx = min(current_idx + count, len(images))`,
slice `images[current_idx:end_idx]`, advance. -/
def slicesBy (heights : List Int) : List Nat → Nat → List (List Int)
  | [], _ => []
  | c :: cs, cur =>
      let endIdx := min (cur + c) heights.length
      ((heights.drop cur).take (endIdx - cur)) :: slicesBy heights cs endIdx

/-- Per-strip image counts: the first strip uses `images_in_first_strip`,
every later one `images_per_other_strip`. -/
def stripCounts (heights : List Int) : List Nat :=
  (imagesInFirst heights).toNat ::
    List.replicate ((numStrips heights).toNat - 1) (imagesPerOther heights).toNat

/-- The image slices of the part files written in the splitting branch. -/
def stripParts (heights : List Int) : List (List Int) :=
  slicesBy heights (stripCounts heights) 0

/-- Observable output of `create_webp_strip`: the part files (as slices
of image heights), the part numbers enumerated in the index file (absent
when no split happens), and the quality passed to `strip.save`. -/
structure StripResult where
  parts : List (List Int)
  indexParts : Option (List Nat)
  saveQuality : Nat
deriving Repr, DecidableEq

/-- `create_webp_strip(images, ..., quality)`: splits when the estimated
total height exceeds 16000, writing `_part{i+1}` files and an index that
lists `Part 1..num_strips`; otherwise writes a single strip and no index.
Every save goes through `_create_single_strip`, whose
`strip.save(output_path, 'WEBP', quality=95, method=6)` (line 314) uses
the literal 95, not the `quality` argument. -/
def create_webp_strip (heights : List Int) (quality : Nat) : StripResult :=
  if totalStripHeight heights > 16000 then
    { parts := stripParts heights,
      indexParts := some ((List.range (numStrips heights).toNat).map (fun i => i + 1)),
      saveQuality := 95 }
  else
    { parts := [heights], indexParts := none, saveQuality := 95 }

/-- The quality `compile_webp_album.py` passes to every `img.save(...,
'WEBP', quality=quality, method=6)` call (lines 188, 199, 219, 251). -/
def album_save_quality (quality : Nat) : Nat := quality

/-! ## Script entry points (`__main__` blocks)

Each script's `__main__` block collects images and, when the list is
empty, prints an error and calls `sys.exit(1)` before any code that
creates or modifies the requested output path runs; otherwise it calls
its `create_*` emitter (the only code that touches the output path) and
finishes with exit status 0.  `outputTouched` records whether the emitter
call was reached. -/

/-- Exit status and whether the output path was touched. -/
structure MainResult where
  exitCode : Nat
  outputTouched : Bool
deriving Repr, DecidableEq

/-- `compile_cbz.py` `__main__` as a function of the collected images. -/
def cbzMain (images : List PyStr) : MainResult :=
  if images.isEmpty then ⟨1, false⟩ else ⟨0, true⟩

/-- `compile_epub.py` `__main__`. -/
def epubMain (images : List PyStr) : MainResult :=
  if images.isEmpty then ⟨1, false⟩ else ⟨0, true⟩

/-- `compile_html.py` `__main__`. -/
def htmlMain (images : List PyStr) : MainResult :=
  if images.isEmpty then ⟨1, false⟩ else ⟨0, true⟩

/-- `compile_pdf.py` `__main__`. -/
def pdfMain (images : List PyStr) : MainResult :=
  if images.isEmpty then ⟨1, false⟩ else ⟨0, true⟩

/-- `compile_webp_album.py` `__main__`. -/
def webpAlbumMain (images : List PyStr) : MainResult :=
  if images.isEmpty then ⟨1, false⟩ else ⟨0, true⟩

/-- `compile_webp_strip.py` `__main__`. -/
def webpStripMain (images : List PyStr) : MainResult :=
  if images.isEmpty then ⟨1, false⟩ else ⟨0, true⟩

/-! ## Helper lemmas: `str.split()` and `' '.join` -/

theorem pySplitWsAux_tokens (s : List Char) : ∀ (acc : List Char),
    (∀ c ∈ acc, pyIsSpace c = false) →
    ∀ t ∈ pySplitWsAux s acc, t ≠ [] ∧ ∀ c ∈ t, pyIsSpace c = false := by
  induction s with
  | nil =>
      intro acc hacc t ht
      by_cases h : acc = []
      · simp [pySplitWsAux, h] at ht
      · simp [pySplitWsAux, h] at ht
        subst ht
        refine ⟨by simpa using h, ?_⟩
        intro c hc
        exact hacc c (List.mem_reverse.mp hc)
  | cons c cs ih =>
      intro acc hacc t ht
      by_cases hsp : pyIsSpace c = true
      · by_cases h : acc = []
        · simp [pySplitWsAux, hsp, h] at ht
          exact ih [] (by simp) t ht
        · simp [pySplitWsAux, hsp, h] at ht
          rcases ht with ht | ht
          · subst ht
            refine ⟨by simpa using h, ?_⟩
            intro x hx
            exact hacc x (List.mem_reverse.mp hx)
          · exact ih [] (by simp) t ht
      · simp only [Bool.not_eq_true] at hsp
        simp only [pySplitWsAux, hsp, Bool.false_eq_true, if_false] at ht
        refine ih (c :: acc) ?_ t ht
        intro x hx
        rcases List.mem_cons.mp hx with hx | hx
        · subst hx; exact hsp
        · exact hacc x hx

theorem pySplitWs_tokens (s : List Char) :
    ∀ t ∈ pySplitWs s, t ≠ [] ∧ ∀ c ∈ t, pyIsSpace c = false :=
  pySplitWsAux_tokens s [] (by simp)

theorem pySplitWsAux_nospace_run (t : List Char) (ht : ∀ c ∈ t, pyIsSpace c = false) :
    ∀ (rest acc : List Char),
      pySplitWsAux (t ++ rest) acc = pySplitWsAux rest (t.reverse ++ acc) := by
  induction t with
  | nil => intro rest acc; simp
  | cons c t' ih =>
      intro rest acc
      have hc : pyIsSpace c = false := ht c (List.mem_cons_self c t')
      have ht' : ∀ x ∈ t', pyIsSpace x = false := fun x hx => ht x (List.mem_cons_of_mem c hx)
      simp only [List.cons_append, pySplitWsAux, hc, Bool.false_eq_true, if_false,
        List.append_eq]
      rw [ih ht' rest (c :: acc)]
      simp [List.append_assoc]

theorem pySplitWs_join (ts : List (List Char))
    (h : ∀ t ∈ ts, t ≠ [] ∧ ∀ c ∈ t, pyIsSpace c = false) :
    pySplitWs (joinSpace ts) = ts := by
  induction ts with
  | nil => rfl
  | cons t ts' ih =>
      obtain ⟨hne, hns⟩ := h t (List.mem_cons_self t ts')
      have h' : ∀ x ∈ ts', x ≠ [] ∧ ∀ c ∈ x, pyIsSpace c = false :=
        fun x hx => h x (List.mem_cons_of_mem t hx)
      have hrevne : t.reverse ≠ [] := by simpa using hne
      match ts' with
      | [] =>
          show pySplitWs t = [t]
          have : pySplitWsAux (t ++ []) [] = pySplitWsAux [] (t.reverse ++ []) :=
            pySplitWsAux_nospace_run t hns [] []
          simp only [List.append_nil] at this
          unfold pySplitWs
          rw [this]
          simp [pySplitWsAux, hrevne]
      | u :: us =>
          show pySplitWs (t ++ ' ' :: joinSpace (u :: us)) = t :: u :: us
          unfold pySplitWs
          rw [pySplitWsAux_nospace_run t hns (' ' :: joinSpace (u :: us)) []]
          simp only [List.append_nil]
          have hspc : pyIsSpace ' ' = true := rfl
          have hstep : pySplitWsAux (' ' :: joinSpace (u :: us)) t.reverse
              = t.reverse.reverse :: pySplitWsAux (joinSpace (u :: us)) [] := by
            simp [pySplitWsAux, hspc, hrevne]
          rw [hstep, List.reverse_reverse]
          rw [show pySplitWsAux (joinSpace (u :: us)) [] = pySplitWs (joinSpace (u :: us)) from rfl]
          rw [ih h']

/-! ## Helper lemmas: the caption filter loop -/

theorem capLoop_length (ws : List PyStr) : ∀ acc : List PyStr,
    acc.length < 7 → (capLoop ws acc).length ≤ 7 := by
  induction ws with
  | nil => intro acc hacc; exact Nat.le_of_lt (by simpa [capLoop] using hacc)
  | cons w ws' ih =>
      intro acc hacc
      simp only [capLoop]
      by_cases hcl : pyRstripPunct w = []
      · simp only [hcl, if_true]
        exact ih acc hacc
      · simp only [hcl, if_false]
        set acc' := if keepTok (pyRstripPunct w) then acc ++ [pyRstripPunct w] else acc with hacc'
        have hlen : acc'.length ≤ acc.length + 1 := by
          rw [hacc']
          by_cases hk : keepTok (pyRstripPunct w) = true
          · simp [hk]
          · simp only [Bool.not_eq_true] at hk
            simp [hk]
        by_cases hge : acc'.length ≥ 7
        · simp only [hge, if_true]
          omega
        · simp only [hge, if_false]
          exact ih acc' (by omega)

theorem capLoop_mem (ws : List PyStr) : ∀ (acc : List PyStr) (t : PyStr),
    t ∈ capLoop ws acc →
    t ∈ acc ∨ (t ≠ [] ∧ keepTok t = true ∧ ∃ w ∈ ws, t = pyRstripPunct w) := by
  induction ws with
  | nil => intro acc t ht; exact Or.inl (by simpa [capLoop] using ht)
  | cons w ws' ih =>
      intro acc t ht
      simp only [capLoop] at ht
      by_cases hcl : pyRstripPunct w = []
      · simp only [hcl, if_true] at ht
        rcases ih acc t ht with h | ⟨h1, h2, w', hw', h3⟩
        · exact Or.inl h
        · exact Or.inr ⟨h1, h2, w', List.mem_cons_of_mem w hw', h3⟩
      · simp only [hcl, if_false] at ht
        set acc' := if keepTok (pyRstripPunct w) then acc ++ [pyRstripPunct w] else acc with hacc'
        have hstep : t ∈ acc' →
            t ∈ acc ∨ (t ≠ [] ∧ keepTok t = true ∧ ∃ x ∈ w :: ws', t = pyRstripPunct x) := by
          intro htacc
          rw [hacc'] at htacc
          by_cases hk : keepTok (pyRstripPunct w) = true
          · simp only [hk, if_true, List.mem_append, List.mem_singleton] at htacc
            rcases htacc with h | h
            · exact Or.inl h
            · subst h
              exact Or.inr ⟨hcl, hk, w, List.mem_cons_self w ws', rfl⟩
          · simp only [Bool.not_eq_true] at hk
            simp only [hk, Bool.false_eq_true, if_false] at htacc
            exact Or.inl htacc
        by_cases hge : acc'.length ≥ 7
        · simp only [hge, if_true] at ht
          exact hstep ht
        · simp only [hge, if_false] at ht
          rcases ih acc' t ht with h | ⟨h1, h2, w', hw', h3⟩
          · exact hstep h
          · exact Or.inr ⟨h1, h2, w', List.mem_cons_of_mem w hw', h3⟩

theorem rstripPunct_subset (w : PyStr) : ∀ c ∈ pyRstripPunct w, c ∈ w := by
  intro c hc
  unfold pyRstripPunct at hc
  rw [List.mem_reverse] at hc
  have hsub := List.dropWhile_sublist
    (fun c => c = ',' || c = '.' || c = ';' || c = ':') (l := w.reverse)
  exact List.mem_reverse.mp (hsub.subset hc)

theorem firstSentence_subset (l : List PyStr) : ∀ w ∈ firstSentence l, w ∈ l := by
  induction l with
  | nil => intro w hw; simpa [firstSentence] using hw
  | cons x xs ih =>
      intro w hw
      simp only [firstSentence] at hw
      by_cases h : x.getLast? = some '.'
      · simp only [h, if_true, List.mem_singleton] at hw
        simp [hw]
      · simp only [h, if_false, List.mem_cons] at hw
        rcases hw with hw | hw
        · simp [hw]
        · exact List.mem_cons_of_mem x (ih w hw)

theorem smartTokens_spec (desc : PyStr) : ∀ t ∈ smartTokens desc,
    t ≠ [] ∧ keepTok t = true ∧ ∀ c ∈ t, pyIsSpace c = false := by
  intro t ht
  rcases capLoop_mem _ [] t ht with h | ⟨h1, h2, w, hw, h3⟩
  · simp at h
  · refine ⟨h1, h2, ?_⟩
    intro c hc
    have hw' : w ∈ pySplitWs desc := firstSentence_subset _ w hw
    have := (pySplitWs_tokens desc w hw').2
    exact this c (rstripPunct_subset w c (h3 ▸ hc))

theorem smartTokens_length (desc : PyStr) : (smartTokens desc).length ≤ 7 :=
  capLoop_length _ [] (by simp)

theorem extract_eq (desc : PyStr) : extract_smart_caption desc =
    if smartTokens desc = [] then desc.take 50 else joinSpace (smartTokens desc) := by
  unfold extract_smart_caption
  by_cases h : desc = []
  · subst h; simp [show smartTokens [] = [] from rfl]
  · simp [h]

theorem tokens_of_extract (desc : PyStr) (h : smartTokens desc ≠ []) :
    pySplitWs (extract_smart_caption desc) = smartTokens desc := by
  rw [extract_eq, if_neg h]
  exact pySplitWs_join _ (fun t ht =>
    ⟨(smartTokens_spec desc t ht).1, (smartTokens_spec desc t ht).2.2⟩)

theorem skip_not_kept : ∀ s ∈ skipWords, keepTok s = false := by decide

/-! ## Claim C2 -/

/-- C2 (counterexample): on the spec's example input,
`extract_smart_caption` does NOT return
"figure stands in ruined library clutching brass".  The leading article
"A" is capitalized, so the proper-noun rule keeps it, and the 7-token cap
is reached before "brass". -/
theorem claim_C2_counterexample :
    extract_smart_caption
        (pys "A tall figure stands in the ruined library, clutching a brass lantern.") ≠
      pys "figure stands in ruined library clutching brass" := by decide

/-- C2 (amended): `extract_smart_caption` applied to "A tall figure stands
in the ruined library, clutching a brass lantern." returns
"A figure stands in ruined library clutching". -/
theorem claim_C2_amended :
    extract_smart_caption
        (pys "A tall figure stands in the ruined library, clutching a brass lantern.") =
      pys "A figure stands in ruined library clutching" := by decide

/-! ## Claim C4 -/

/-- C4: for every input description, `extract_smart_caption` returns the
first 50 characters of the input exactly when zero tokens survive the
filtering, and otherwise its output has at most 7 whitespace-separated
tokens. -/
theorem claim_C4_caption_cap (desc : PyStr) :
    extract_smart_caption desc =
        (if smartTokens desc = [] then desc.take 50 else joinSpace (smartTokens desc)) ∧
      (smartTokens desc ≠ [] → (pySplitWs (extract_smart_caption desc)).length ≤ 7) :=
  ⟨extract_eq desc, fun h => by
    rw [tokens_of_extract desc h]; exact smartTokens_length desc⟩

/-- C4 witness: a concrete non-fallback input with at most 7 output tokens. -/
theorem claim_C4_witness :
    smartTokens (pys "A small cat sat on the old stone wall near the garden gate.") ≠ [] ∧
      (pySplitWs (extract_smart_caption
        (pys "A small cat sat on the old stone wall near the garden gate."))).length ≤ 7 :=
  ⟨by decide,
   (claim_C4_caption_cap (pys "A small cat sat on the old stone wall near the garden gate.")).2
     (by decide)⟩

/-! ## Claim C5 -/

/-- C5 (counterexample): for the input "the and of" every token is
filtered out, so the fallback returns the first 50 characters verbatim;
the output then contains the stopword "the" although no word of the
source text is capitalized. -/
theorem claim_C5_counterexample :
    (pys "the") ∈ pySplitWs (extract_smart_caption (pys "the and of")) ∧
      (pys "the") ∈ skipWords ∧
      ∀ w ∈ pySplitWs (pys "the and of"), pyIsUpper (w.headD ' ') = false := by decide

/-- C5 (amended): no whitespace-separated token of the output of
`extract_smart_caption` belongs to the fixed stopword set unless that
token is capitalized in the source text or the fallback
(first-50-characters) path is taken; in fact a stopword can only appear
in the output via the fallback path, i.e. when zero tokens survive the
filtering. -/
theorem claim_C5_stopwords (desc t : PyStr)
    (ht : t ∈ pySplitWs (extract_smart_caption desc)) (hskip : t ∈ skipWords) :
    smartTokens desc = [] := by
  by_contra h
  rw [tokens_of_extract desc h] at ht
  have hkeep : keepTok t = true := (smartTokens_spec desc t ht).2.1
  have hnot : keepTok t = false := skip_not_kept t hskip
  rw [hkeep] at hnot
  exact Bool.noConfusion hnot

/-- C5 witness: the concrete fallback input applied to the amended claim. -/
theorem claim_C5_witness :
    (pys "the") ∈ pySplitWs (extract_smart_caption (pys "the and of")) ∧
      (pys "the") ∈ skipWords ∧ smartTokens (pys "the and of") = [] :=
  ⟨by decide, by decide,
   claim_C5_stopwords (pys "the and of") (pys "the") (by decide) (by decide)⟩

/-! ## Helper lemmas: the stable sort of `collect_images` -/

theorem keyLe_of_keyLt {a b : Nat × Nat} (h : keyLt a b) : keyLe a b := by
  obtain ⟨a1, a2⟩ := a; obtain ⟨b1, b2⟩ := b
  unfold keyLt at h; unfold keyLe; omega

theorem keyLe_of_not_keyLt {a b : Nat × Nat} (h : ¬ keyLt a b) : keyLe b a := by
  obtain ⟨a1, a2⟩ := a; obtain ⟨b1, b2⟩ := b
  unfold keyLt at h; unfold keyLe; omega

theorem keyLe_of_keyLt_of_keyLe {a b c : Nat × Nat} (h1 : keyLt a b) (h2 : keyLe b c) :
    keyLe a c := by
  obtain ⟨a1, a2⟩ := a; obtain ⟨b1, b2⟩ := b; obtain ⟨c1, c2⟩ := c
  unfold keyLt at h1; unfold keyLe at h2 ⊢; omega

theorem keyLe_keyLt_asymm {a b : Nat × Nat} (h1 : keyLe a b) (h2 : keyLt b a) : False := by
  obtain ⟨a1, a2⟩ := a; obtain ⟨b1, b2⟩ := b
  unfold keyLe at h1; unfold keyLt at h2; omega

theorem insertByKey_perm (a : PyStr) (l : List PyStr) :
    List.Perm (insertByKey a l) (a :: l) := by
  induction l with
  | nil => rfl
  | cons b bs ih =>
      unfold insertByKey
      by_cases h : keyLt (sort_key a) (sort_key b)
      · simp [h]
      · simp only [h, if_false]
        exact (ih.cons b).trans (List.Perm.swap a b bs)

theorem insertByKey_pairwise (a : PyStr) (l : List PyStr)
    (h : l.Pairwise (fun p q => keyLe (sort_key p) (sort_key q))) :
    (insertByKey a l).Pairwise (fun p q => keyLe (sort_key p) (sort_key q)) := by
  induction l with
  | nil => simp [insertByKey]
  | cons b bs ih =>
      rcases List.pairwise_cons.mp h with ⟨hb, hbs⟩
      unfold insertByKey
      by_cases hlt : keyLt (sort_key a) (sort_key b)
      · simp only [hlt, if_true]
        refine List.Pairwise.cons ?_ h
        intro x hx
        rcases List.mem_cons.mp hx with hx | hx
        · subst hx; exact keyLe_of_keyLt hlt
        · exact keyLe_of_keyLt_of_keyLe hlt (hb x hx)
      · simp only [hlt, if_false]
        refine List.Pairwise.cons ?_ (ih hbs)
        intro x hx
        rcases List.mem_cons.mp ((insertByKey_perm a bs).mem_iff.mp hx) with hx | hx
        · rw [hx]; exact keyLe_of_not_keyLt hlt
        · exact hb x hx

theorem sortFold_pairwise (ps : List PyStr) : ∀ acc : List PyStr,
    acc.Pairwise (fun p q => keyLe (sort_key p) (sort_key q)) →
    (ps.foldl (fun acc p => insertByKey p acc) acc).Pairwise
      (fun p q => keyLe (sort_key p) (sort_key q)) := by
  induction ps with
  | nil => intro acc hacc; exact hacc
  | cons p ps' ih => intro acc hacc; exact ih _ (insertByKey_pairwise p acc hacc)

theorem pySortImages_pairwise (ps : List PyStr) :
    (pySortImages ps).Pairwise (fun p q => keyLe (sort_key p) (sort_key q)) :=
  sortFold_pairwise ps [] List.Pairwise.nil

theorem sortFold_perm (ps : List PyStr) : ∀ acc : List PyStr,
    List.Perm (ps.foldl (fun acc p => insertByKey p acc) acc) (acc ++ ps) := by
  induction ps with
  | nil => intro acc; simp
  | cons p ps' ih =>
      intro acc
      have h1 : (p :: ps').foldl (fun acc p => insertByKey p acc) acc
          = ps'.foldl (fun acc p => insertByKey p acc) (insertByKey p acc) := rfl
      rw [h1]
      refine (ih _).trans ?_
      refine (((insertByKey_perm p acc).append_right ps').trans ?_)
      exact List.perm_middle.symm

theorem pySortImages_perm (ps : List PyStr) : List.Perm (pySortImages ps) ps := by
  simpa using sortFold_perm ps []

theorem sort_key_of_no_match (p : PyStr) (h : hasSceneMatch p = false) :
    sort_key p = (999, 999) := by
  unfold hasSceneMatch at h
  unfold sort_key
  cases hm : reSearchCS (pyStem p) with
  | none => rfl
  | some v => rw [hm] at h; simp at h

/-! ## Claim C1 -/

/-- C1 (counterexample): `chapter_1000_scene_1.png` has a scene match with
key `(1000, 1)`, which sorts after the sentinel `(999, 999)`, so the
non-matching `notes.png` is placed BEFORE a matching filename. -/
theorem claim_C1_counterexample :
    hasSceneMatch (pys "chapter_1000_scene_1.png") = true ∧
      hasSceneMatch (pys "notes.png") = false ∧
      pySortImages [pys "chapter_1000_scene_1.png", pys "notes.png"] =
        [pys "notes.png", pys "chapter_1000_scene_1.png"] := by decide

/-- C1 (amended): the Image Collector returns a permutation of the input
filenames sorted in ascending lexicographic order of the `sort_key` pair;
every filename without a `chapter_<N>_scene_<M>` match carries the
sentinel key `(999, 999)` and is therefore placed after every matching
filename whose key is lexicographically below `(999, 999)` (a matching
filename whose key is at or above the sentinel may sort with or after
non-matching ones). -/
theorem claim_C1_collector_order (ps : List PyStr) :
    (pySortImages ps).Perm ps ∧
      (∀ p : PyStr, hasSceneMatch p = false → sort_key p = (999, 999)) ∧
      ∀ i j : Nat, i < (pySortImages ps).length → j < (pySortImages ps).length →
        (i < j →
          keyLe (sort_key ((pySortImages ps).getD i []))
            (sort_key ((pySortImages ps).getD j []))) ∧
        (hasSceneMatch ((pySortImages ps).getD i []) = true →
          keyLt (sort_key ((pySortImages ps).getD i [])) (999, 999) →
          hasSceneMatch ((pySortImages ps).getD j []) = false → i < j) := by
  refine ⟨pySortImages_perm ps, sort_key_of_no_match, ?_⟩
  intro i j hi hj
  have hp := (List.pairwise_iff_get.mp (pySortImages_pairwise ps))
  constructor
  · intro hij
    rw [List.getD_eq_get _ _ hi, List.getD_eq_get _ _ hj]
    exact hp ⟨i, hi⟩ ⟨j, hj⟩ hij
  · intro hmi hki hmj
    rcases Nat.lt_trichotomy i j with h | h | h
    · exact h
    · exfalso
      rw [h] at hmi
      rw [hmi] at hmj
      exact Bool.noConfusion hmj
    · exfalso
      have hle := hp ⟨j, hj⟩ ⟨i, hi⟩ h
      rw [← List.getD_eq_get _ ([] : PyStr) hj, ← List.getD_eq_get _ ([] : PyStr) hi] at hle
      rw [sort_key_of_no_match _ hmj] at hle
      exact keyLe_keyLt_asymm hle hki

/-- C1 witness: on `[chapter_2_scene_1.png, x.png, chapter_1_scene_1.png]`
the collector yields `[chapter_1_scene_1, chapter_2_scene_1, x]`; the
matching file at index 0 (key below the sentinel) comes before the
non-matching file at index 2. -/
theorem claim_C1_witness :
    0 < (pySortImages [pys "chapter_2_scene_1.png", pys "x.png",
        pys "chapter_1_scene_1.png"]).length ∧
      2 < (pySortImages [pys "chapter_2_scene_1.png", pys "x.png",
        pys "chapter_1_scene_1.png"]).length ∧
      hasSceneMatch ((pySortImages [pys "chapter_2_scene_1.png", pys "x.png",
        pys "chapter_1_scene_1.png"]).getD 0 []) = true ∧
      keyLt (sort_key ((pySortImages [pys "chapter_2_scene_1.png", pys "x.png",
        pys "chapter_1_scene_1.png"]).getD 0 [])) (999, 999) ∧
      hasSceneMatch ((pySortImages [pys "chapter_2_scene_1.png", pys "x.png",
        pys "chapter_1_scene_1.png"]).getD 2 []) = false ∧
      0 < 2 :=
  ⟨by decide, by decide, by decide, by decide, by decide,
   ((claim_C1_collector_order [pys "chapter_2_scene_1.png", pys "x.png",
       pys "chapter_1_scene_1.png"]).2.2 0 2 (by decide) (by decide)).2
     (by decide) (by decide) (by decide)⟩

/-! ## Claim C7 -/

/-- C7: the `--quality` value reaches the encoder in
`compile_webp_album.py` (`quality=quality` at every save), but
`compile_webp_strip.py`'s `_create_single_strip` saves with the literal
`quality=95` (line 314), ignoring the threaded `quality` argument for
every part file — the strip script's documented `--quality` flag has no
effect on encoding. -/
theorem claim_C7_quality :
    (∀ (heights : List Int) (q : Nat), (create_webp_strip heights q).saveQuality = 95) ∧
      ∀ q : Nat, album_save_quality q = q := by
  refine ⟨fun heights q => ?_, fun q => rfl⟩
  unfold create_webp_strip
  split <;> rfl

/-! ## Claim C8 -/

/-- C8: when the Image Collector finds zero images, every one of the six
emitter scripts exits with status 1 without reaching the emitter call
that creates or modifies the requested output path. -/
theorem claim_C8_zero_images (images : List PyStr) (h : images = []) :
    cbzMain images = ⟨1, false⟩ ∧ epubMain images = ⟨1, false⟩ ∧
      htmlMain images = ⟨1, false⟩ ∧ pdfMain images = ⟨1, false⟩ ∧
      webpAlbumMain images = ⟨1, false⟩ ∧ webpStripMain images = ⟨1, false⟩ := by
  subst h
  exact ⟨rfl, rfl, rfl, rfl, rfl, rfl⟩

/-- C8 witness: the empty image list. -/
theorem claim_C8_witness :
    ([] : List PyStr) = [] ∧ cbzMain [] = ⟨1, false⟩ ∧ webpStripMain [] = ⟨1, false⟩ :=
  ⟨rfl, (claim_C8_zero_images [] rfl).1, (claim_C8_zero_images [] rfl).2.2.2.2.2⟩

/-! ## Claim C10 -/

/-- C10: for every description table and image path, the `get_caption`
functions of the CBZ, EPUB and WebP-album scripts agree whenever the
filename stem has a `chapter_<N>_scene_<M>` match; without a match the
CBZ variant returns the stem while the EPUB and WebP-album variants
return the empty string. -/
theorem claim_C10_caption_agreement (d : Descs) (p : PyStr) :
    (∀ c s : PyStr, reSearchCS (pyStem p) = some (c, s) →
      get_caption_cbz p d = get_caption_epub p d ∧
        get_caption_epub p d = get_caption_album p d) ∧
    (reSearchCS (pyStem p) = none →
      get_caption_cbz p d = pyStem p ∧
        get_caption_epub p d = [] ∧ get_caption_album p d = []) := by
  constructor
  · intro c s h
    unfold get_caption_cbz get_caption_epub get_caption_album
    rw [h]
    exact ⟨rfl, rfl⟩
  · intro h
    unfold get_caption_cbz get_caption_epub get_caption_album
    rw [h]
    exact ⟨rfl, rfl, rfl⟩

/-- C10 witness: a matching stem on the empty table, where all three
variants return the positional fallback caption. -/
theorem claim_C10_witness :
    reSearchCS (pyStem (pys "chapter_3_scene_2.png")) = some (pys "3", pys "2") ∧
      (get_caption_cbz (pys "chapter_3_scene_2.png") [] =
          get_caption_epub (pys "chapter_3_scene_2.png") [] ∧
        get_caption_epub (pys "chapter_3_scene_2.png") [] =
          get_caption_album (pys "chapter_3_scene_2.png") []) :=
  ⟨by decide,
   (claim_C10_caption_agreement [] (pys "chapter_3_scene_2.png")).1
     (pys "3") (pys "2") (by decide)⟩

/-! ## Helper lemmas: WebP strip splitting -/

theorem imagesPerOther_pos (heights : List Int) : 1 ≤ imagesPerOther heights :=
  le_max_left 1 _

theorem imagesInFirst_pos (heights : List Int) : 1 ≤ imagesInFirst heights :=
  le_max_left 1 _

theorem ceil_fdiv_pos {r p : Int} (hr : 0 < r) (hp : 1 ≤ p) : 1 ≤ (r + p - 1).fdiv p := by
  rw [Int.fdiv_eq_ediv _ (by omega)]
  rw [Int.le_ediv_iff_mul_le (by omega)]
  omega

theorem numStrips_pos (heights : List Int) : 1 ≤ numStrips heights := by
  unfold numStrips
  dsimp only
  split
  · rename_i h
    have h2 := ceil_fdiv_pos h (imagesPerOther_pos heights)
    omega
  · omega

theorem numStrips_gt_one_iff (heights : List Int) :
    1 < numStrips heights ↔ (heights.length : Int) > imagesInFirst heights := by
  unfold numStrips
  dsimp only
  split
  · rename_i h
    have h2 := ceil_fdiv_pos h (imagesPerOther_pos heights)
    constructor
    · intro _; omega
    · intro _; omega
  · rename_i h
    constructor
    · intro hc; omega
    · intro hc; exact absurd hc (by omega)

theorem slicesBy_length (heights : List Int) (cs : List Nat) :
    ∀ cur : Nat, (slicesBy heights cs cur).length = cs.length := by
  induction cs with
  | nil => intro cur; rfl
  | cons c cs' ih => intro cur; simp [slicesBy, ih]

theorem numStrips_toNat_pos (heights : List Int) : 1 ≤ (numStrips heights).toNat := by
  have h := Int.toNat_le_toNat (numStrips_pos heights)
  simpa using h

theorem stripParts_length (heights : List Int) :
    (stripParts heights).length = (numStrips heights).toNat := by
  unfold stripParts stripCounts
  rw [slicesBy_length, List.length_cons, List.length_replicate]
  rw [Nat.sub_add_cancel (numStrips_toNat_pos heights)]

/-! ## Claim C3 -/

/-- C3 (counterexample): a single image of composited height 15600 gives
an estimated total of 16190 > 16000, so the splitting branch runs, yet it
produces exactly one part file (the whole set fits the computed first
strip). -/
theorem claim_C3_counterexample :
    totalStripHeight [15600] > 16000 ∧
      (create_webp_strip [15600] 85).parts.length = 1 ∧
      (create_webp_strip [15600] 85).indexParts = some [1] := by decide

/-- C3 (amended): whenever the estimated total composited height exceeds
the 16000-pixel ceiling, the WebP strip emitter produces one or more part
files — more than one exactly when the image count exceeds the computed
first-strip capacity — and writes an index file that enumerates each part
number exactly once. -/
theorem claim_C3_strip_split (heights : List Int) (q : Nat)
    (h : totalStripHeight heights > 16000) :
    1 ≤ (create_webp_strip heights q).parts.length ∧
      ((create_webp_strip heights q).parts.length > 1 ↔
        (heights.length : Int) > imagesInFirst heights) ∧
      (create_webp_strip heights q).indexParts =
        some ((List.range (create_webp_strip heights q).parts.length).map (fun i => i + 1)) ∧
      ((List.range (create_webp_strip heights q).parts.length).map (fun i => i + 1)).Nodup := by
  have hnum := numStrips_pos heights
  have hiff := numStrips_gt_one_iff heights
  have hres : create_webp_strip heights q =
      { parts := stripParts heights,
        indexParts := some ((List.range (numStrips heights).toNat).map (fun i => i + 1)),
        saveQuality := 95 } := by
    unfold create_webp_strip
    rw [if_pos h]
  rw [hres]
  dsimp only
  rw [stripParts_length]
  refine ⟨numStrips_toNat_pos heights, ?_, rfl, ?_⟩
  · exact Int.lt_toNat.trans hiff
  · exact (List.nodup_range _).map (fun a b hab => by omega)

/-- C3 witness: two images of height 8000 each give total 16700 > 16000
and split into two parts with index `[1, 2]`. -/
theorem claim_C3_witness :
    totalStripHeight [8000, 8000] > 16000 ∧
      (1 ≤ (create_webp_strip [8000, 8000] 85).parts.length ∧
        ((create_webp_strip [8000, 8000] 85).parts.length > 1 ↔
          (([8000, 8000] : List Int).length : Int) > imagesInFirst [8000, 8000]) ∧
        (create_webp_strip [8000, 8000] 85).indexParts =
          some ((List.range (create_webp_strip [8000, 8000] 85).parts.length).map
            (fun i => i + 1)) ∧
        ((List.range (create_webp_strip [8000, 8000] 85).parts.length).map
          (fun i => i + 1)).Nodup) :=
  ⟨by decide, claim_C3_strip_split [8000, 8000] 85 (by decide)⟩

/-! ## Helper lemmas: the CBZ-family loader window -/

theorem cbzLoadAux_no_marker (ls : List PyStr) : ∀ d : Descs,
    (∀ l ∈ ls, pyContains (pyStrip l) veMarker = false) → cbzLoadAux ls d = d := by
  induction ls with
  | nil => intro d _; rfl
  | cons l ls' ih =>
      intro d h
      have hl : pyContains (pyStrip l) veMarker = false := h l (List.mem_cons_self l ls')
      simp only [cbzLoadAux, hl, Bool.false_eq_true, if_false]
      exact ih d (fun x hx => h x (List.mem_cons_of_mem l hx))

theorem findRefAux_gap (x : PyStr) (hx : pairIn x = true) (gap : List PyStr) :
    ∀ fuel : Nat, (∀ l ∈ gap, pairIn l = false) →
      findRefAux fuel (gap ++ [x]) = if gap.length < fuel then reSearchCS x else none := by
  induction gap with
  | nil =>
      intro fuel _
      cases fuel with
      | zero => rfl
      | succ n => simp [findRefAux, hx]
  | cons g gs ih =>
      intro fuel h
      have hgf : pairIn g = false := h g (List.mem_cons_self g gs)
      cases fuel with
      | zero => simp [findRefAux]
      | succ n =>
          simp only [List.cons_append, findRefAux, hgf, Bool.false_eq_true, if_false,
            List.append_eq]
          rw [ih n (fun l hl => h l (List.mem_cons_of_mem g hl))]
          simp [Nat.succ_lt_succ_iff]

/-! ## Claim C6 -/

/-- C6 (counterexample): the block is followed within 15 lines (at offset
2) by a line containing `chapter_3_scene_2.png`, but the lookahead breaks
at the first line containing both `chapter_` and `_scene_` — here
`chapter_1_scene_1.png` at offset 1 — so the key `("3","2")` is never
mapped; `("1","1")` gets the paragraph instead. -/
theorem claim_C6_counterexample :
    dictGet (load_scene_descriptions_cbz
        [pys "**Visual Elements:** A dark castle.",
         pys "chapter_1_scene_1.png",
         pys "chapter_3_scene_2.png"]) (pys "3", pys "2") = none ∧
      (dictGet (load_scene_descriptions_cbz
        [pys "**Visual Elements:** A dark castle.",
         pys "chapter_1_scene_1.png",
         pys "chapter_3_scene_2.png"]) (pys "1", pys "1")).isSome = true := by decide

/-- C6 (amended): if the first line in the 15-line lookahead window (the
`**Visual Elements:**` line plus the following 14 lines) containing both
`chapter_` and `_scene_` is a `chapter_3_scene_2.png` reference, the
Loader maps `("3","2")` to the captured paragraph — the reference sits at
most 14 lines after the block, i.e. gap length at most 13 here; when the
first such reference appears 15 or more lines after the block (so in
particular 16 or more), no mapping is created. -/
theorem claim_C6_window (gap : List PyStr)
    (hg : ∀ l ∈ gap, pyContains (pyStrip l) veMarker = false ∧ pairIn l = false) :
    dictGet (load_scene_descriptions_cbz
        (pys "**Visual Elements:** A dark castle." ::
          (gap ++ [pys "chapter_3_scene_2.png"]))) (pys "3", pys "2") =
      if gap.length ≤ 13 then
        some (pyStrip (captureRaw (pyStrip (pys "**Visual Elements:** A dark castle."))
          (gap ++ [pys "chapter_3_scene_2.png"])))
      else none := by
  have hmk : pyContains (pyStrip (pys "**Visual Elements:** A dark castle.")) veMarker
      = true := by decide
  have hpairve : pairIn (pys "**Visual Elements:** A dark castle.") = false := by decide
  have hpairref : pairIn (pys "chapter_3_scene_2.png") = true := by decide
  have hre : reSearchCS (pys "chapter_3_scene_2.png") = some (pys "3", pys "2") := by decide
  have hnomk : ∀ l ∈ gap ++ [pys "chapter_3_scene_2.png"],
      pyContains (pyStrip l) veMarker = false := by
    intro l hl
    rcases List.mem_append.mp hl with h | h
    · exact (hg l h).1
    · rw [List.mem_singleton.mp h]; decide
  have hfind : findRef (pys "**Visual Elements:** A dark castle." ::
      (gap ++ [pys "chapter_3_scene_2.png"])) =
      if gap.length < 14 then some (pys "3", pys "2") else none := by
    unfold findRef
    rw [show (15 : Nat) = 14 + 1 from rfl]
    simp only [findRefAux, hpairve, Bool.false_eq_true, if_false]
    rw [findRefAux_gap _ hpairref gap 14 (fun l hl => (hg l hl).2), hre]
  unfold load_scene_descriptions_cbz
  simp only [cbzLoadAux, hmk, if_true, hfind]
  by_cases hlen : gap.length < 14
  · rw [if_pos hlen, if_pos (by omega : gap.length ≤ 13)]
    rw [cbzLoadAux_no_marker _ _ hnomk]
    simp [dictGet, dictInsert]
  · rw [if_neg hlen, if_neg (by omega : ¬ gap.length ≤ 13)]
    rw [cbzLoadAux_no_marker _ _ hnomk]
    rfl

/-- C6 witness: a two-blank-line gap (reference at offset 3) applied to
the amended claim. -/
theorem claim_C6_witness :
    (∀ l ∈ [([] : PyStr), []], pyContains (pyStrip l) veMarker = false ∧ pairIn l = false) ∧
      dictGet (load_scene_descriptions_cbz
          (pys "**Visual Elements:** A dark castle." ::
            (([([] : PyStr), []]) ++ [pys "chapter_3_scene_2.png"]))) (pys "3", pys "2") =
        (if ([([] : PyStr), []]).length ≤ 13 then
          some (pyStrip (captureRaw (pyStrip (pys "**Visual Elements:** A dark castle."))
            (([([] : PyStr), []]) ++ [pys "chapter_3_scene_2.png"])))
        else none) :=
  ⟨by decide, claim_C6_window [([] : PyStr), []] (by decide)⟩

/-! ## Helper lemmas: the WebP-strip loader -/

theorem wsStep_bound (line : PyStr) (rest : List PyStr) (pending : PyStr) (d : Descs) :
    (wsStepDict line rest pending d).length +
        (if wsStepPending line rest pending = [] then 0 else 1) ≤
      d.length + (if pyContains line veMarker then 1 else 0) +
        (if pending = [] then 0 else 1) := by
  have hpb0 : (0 : Nat) ≤ (if pending = [] then 0 else 1) := Nat.zero_le _
  have hpb1 : (if pending = [] then (0 : Nat) else 1) ≤ 1 := by split <;> omega
  unfold wsStepDict wsStepPending
  by_cases hve : pyContains line veMarker = true
  · simp only [hve, if_true]
    by_cases himg : imgMarker line = true
    · simp only [himg, if_true]
      cases hm : reSearchCSPng line with
      | none =>
          simp
          try omega
      | some k =>
          by_cases hp : captureRaw line rest = []
          · simp only [hp, if_true]
            simp
            try omega
          · simp only [hp, if_false, dictInsert]
            simp
            try omega
    · simp only [himg, Bool.false_eq_true, if_false]
      by_cases hp : captureRaw line rest = []
      · simp only [hp, if_true]
        simp
        try omega
      · simp only [hp, if_false]
        simp [hp]
        try omega
  · simp only [Bool.not_eq_true] at hve
    simp only [hve, Bool.false_eq_true, if_false]
    by_cases himg : imgMarker line = true
    · simp only [himg, if_true]
      cases hm : reSearchCSPng line with
      | none =>
          simp
          try omega
      | some k =>
          by_cases hp : pending = []
          · simp only [hp, if_true]
            simp
            try omega
          · simp only [hp, if_false, dictInsert]
            simp [hp]
            try omega
    · simp only [himg, Bool.false_eq_true, if_false]
      omega

theorem wsLoadAux_length_bound (ls : List PyStr) : ∀ (pending : PyStr) (d : Descs),
    (wsLoadAux ls pending d).length ≤
      d.length + countVE ls + (if pending = [] then 0 else 1) := by
  induction ls with
  | nil =>
      intro pending d
      simp only [wsLoadAux, countVE, List.countP_nil]
      omega
  | cons l ls' ih =>
      intro pending d
      have hcount : countVE (l :: ls') =
          (if pyContains (pyStrip l) veMarker then 1 else 0) + countVE ls' := by
        unfold countVE
        rw [List.countP_cons]
        by_cases h : pyContains (pyStrip l) veMarker = true
        · simp [h]; omega
        · simp only [Bool.not_eq_true] at h
          simp [h]
      have hstep := wsStep_bound (pyStrip l) ls' pending d
      have hrec := ih (wsStepPending (pyStrip l) ls' pending) (wsStepDict (pyStrip l) ls' pending d)
      simp only [wsLoadAux]
      rw [hcount]
      omega

/-! ## Claim C9 -/

/-- C9: in the WebP-strip loader, (1) the number of table entries written
grows by at most the number of `**Visual Elements:**` block lines (plus
one for an initially pending description), so each block contributes at
most one entry; (2) every `**Generated Image:**`/`View Image` marker line
resets the pending description to empty whether or not its filename
parses; (3) a marker line writes at most one entry and only under a
successful `chapter_<N>_scene_<M>.png` match, keyed by that match. -/
theorem claim_C9_pending_invariant :
    (∀ (ls : List PyStr) (pending : PyStr) (d : Descs),
      (wsLoadAux ls pending d).length ≤
        d.length + countVE ls + (if pending = [] then 0 else 1)) ∧
    (∀ (line : PyStr) (rest : List PyStr) (pending : PyStr),
      imgMarker line = true → wsStepPending line rest pending = []) ∧
    (∀ (line : PyStr) (rest : List PyStr) (pending : PyStr) (d : Descs),
      imgMarker line = true →
        wsStepDict line rest pending d = d ∨
        ∃ k, reSearchCSPng line = some k ∧
          wsStepDict line rest pending d =
            dictInsert k (pyStrip (if pyContains line veMarker then captureRaw line rest
              else pending)) d) := by
  refine ⟨fun ls => wsLoadAux_length_bound ls, ?_, ?_⟩
  · intro line rest pending himg
    unfold wsStepPending
    rw [if_pos himg]
  · intro line rest pending d himg
    unfold wsStepDict
    rw [if_pos himg]
    cases hm : reSearchCSPng line with
    | none => exact Or.inl rfl
    | some k =>
        by_cases hp :
            (if pyContains line veMarker = true then captureRaw line rest else pending) = []
        · refine Or.inl ?_
          dsimp only
          rw [if_pos hp]
        · refine Or.inr ⟨k, rfl, ?_⟩
          dsimp only
          rw [if_neg hp]

/-- C9 witness: a marker line whose filename does not parse still resets
the pending description; the count bound instantiated on a one-line file. -/
theorem claim_C9_witness :
    imgMarker (pys "**Generated Image:** broken.png") = true ∧
      wsStepPending (pys "**Generated Image:** broken.png") [] (pys "A cat.") = [] ∧
      (wsLoadAux [pys "**Visual Elements:** A cat."] [] []).length ≤
        ([] : Descs).length + countVE [pys "**Visual Elements:** A cat."] +
          (if ([] : PyStr) = [] then 0 else 1) :=
  ⟨by decide,
   claim_C9_pending_invariant.2.1 (pys "**Generated Image:** broken.png") [] (pys "A cat.")
     (by decide),
   claim_C9_pending_invariant.1 [pys "**Visual Elements:** A cat."] [] []⟩

end Imaginize
